import Mathlib

/-!
# Verification of the csv-filter pipeline

Shallow embedding of the `csv-filter` repository: the configuration data
model (`lib/config`), the filter engine (`lib/filter`), the sort stage
(`lib/sort`) and the top-level configuration validation / loading
(`src/lib.rs`).  CSV records are modelled as `List String`, the header
index (a `HashMap<String, usize>`) as a function `String → Option Nat`,
and Rust panics (out-of-range record indexing, `unwrap`/`expect` on
lookups) as `Option.none`.
-/

namespace CsvFilter

/-- One column's configuration inside a filter rule
(`ColumnFilter` in `lib/config/src/lib.rs`).  The `values` hash set is
modelled as a list with exact string membership. -/
structure ColumnFilter where
  column : String
  «include» : Bool
  values : Option (List String)
  min : Option String
  max : Option String
  deriving DecidableEq

/-- One filter rule bound to one output file
(`FilterConfig` in `lib/config/src/lib.rs`). -/
structure FilterConfig where
  filters : List ColumnFilter
  output : String
  sort_columns : Option (List String)
  deriving DecidableEq

/-! ## Filter engine (`lib/filter/src/lib.rs`) -/

/-- Inner loop of `create_headers_map`: iterate over the header record,
inserting `name ↦ index` into the map (insertion overwrites). -/
def create_headers_map_loop (m : String → Option Nat) (index : Nat) :
    List String → (String → Option Nat)
  | [] => m
  | h :: rest =>
      create_headers_map_loop (fun name => if name = h then some index else m name)
        (index + 1) rest

/-- `create_headers_map`: maps a CSV column name of the header record to its
index in the current CSV file; a repeated name is overwritten by its later
occurrence. -/
def create_headers_map (headers : List String) : String → Option Nat :=
  create_headers_map_loop (fun _ => none) 0 headers

/-- Loop of `record_matches_filter_config` over `config.filters`.
A column filter whose column is absent from the header map is skipped.
For a present column, the record is indexed at its header index
(`csv_record[idx]` — a panic when out of range, modelled as `none`),
then, in order, the value set, the minimum and the maximum are checked;
any failed check returns `false` for the whole record. -/
def matches_filters (csv_record : List String) (headers : String → Option Nat) :
    List ColumnFilter → Option Bool
  | [] => some true
  | column_filter :: rest =>
    match headers column_filter.column with
    | none => matches_filters csv_record headers rest
    | some idx =>
      match csv_record[idx]? with
      | none => none
      | some column_value =>
        if (match column_filter.values with
            | some allowed_values => !allowed_values.contains column_value
            | none => false) then
          some false
        else if (match column_filter.min with
            | some min => decide (column_value < min)
            | none => false) then
          some false
        else if (match column_filter.max with
            | some max => decide (column_value > max)
            | none => false) then
          some false
        else
          matches_filters csv_record headers rest

/-- `record_matches_filter_config`: does a CSV record match the filter
criteria of one filter configuration? -/
def record_matches_filter_config (csv_record : List String) (config : FilterConfig)
    (headers : String → Option Nat) : Option Bool :=
  matches_filters csv_record headers config.filters

/-- `get_output_columns`: the columns of a `FilterConfig` included in the
output, in declaration order. -/
def get_output_columns (config : FilterConfig) : List String :=
  (config.filters.filter (fun f => f.«include»)).map (fun f => f.column)

/-- Loop of `build_output_record` over the output column names: look the
name up in the header map (`expect` — a panic, modelled as `none`, when
absent), index the record there (panic when out of range), and push the
value. -/
def build_output_loop (csv_record : List String) (headers : String → Option Nat) :
    List String → Option (List String)
  | [] => some []
  | colum_name :: rest => do
    let header_index ← headers colum_name
    let v ← csv_record[header_index]?
    let tail ← build_output_loop csv_record headers rest
    pure (v :: tail)

/-- `build_output_record`: creates the CSV output row for one record
according to a `FilterConfig`. -/
def build_output_record (csv_record : List String) (config : FilterConfig)
    (headers : String → Option Nat) : Option (List String) :=
  build_output_loop csv_record headers (get_output_columns config)

/-! ## Sort stage (`lib/sort/src/lib.rs`) -/

/-- Model of Rust's `str::cmp` (a total order; byte-wise on UTF-8, which
coincides with code-point lexicographic order, i.e. Lean's `String` order). -/
def strCmp (a b : String) : Ordering :=
  if a < b then .lt else if a = b then .eq else .gt

/-- Inner loop of `get_sort_order` over the header row: push the index of
every header cell equal to the sort column. -/
def sort_order_scan (sort_column : String) (index : Nat) :
    List String → List Nat
  | [] => []
  | h :: rest =>
    if strCmp sort_column h = .eq then
      index :: sort_order_scan sort_column (index + 1) rest
    else
      sort_order_scan sort_column (index + 1) rest

/-- `get_sort_order`: resolves the sort column names to column indexes of
the (output file's own) header row, in sort-column order; a name matching
several header cells contributes every matching index. -/
def get_sort_order (header_row : List String) (sort_columns : List String) : List Nat :=
  sort_columns.foldr (fun sort_column acc => sort_order_scan sort_column 0 header_row ++ acc) []

/-- `record_comparator`: lexicographic comparison of two records along the
resolved sort indexes.  `a.get(i).unwrap()` panics when the index is out of
range; the panic is modelled as `none`.  Both fields of an index are
fetched before comparing, and a non-equal outcome short-circuits the rest. -/
def record_comparator (a b : List String) : List Nat → Option Ordering
  | [] => some .eq
  | column_index :: rest =>
    match a[column_index]?, b[column_index]? with
    | some column_value_a, some column_value_b =>
      match strCmp column_value_a column_value_b with
      | .eq => record_comparator a b rest
      | o => some o
    | _, _ => none

/-- The boolean "less or equal" view of `record_comparator` under which
Rust's stable `sort_by` sorts (`sort_by(cmp)` orders by `cmp a b ≠ Greater`). -/
def recordLe (header_map : List Nat) (a b : List String) : Bool :=
  record_comparator a b header_map ≠ some .gt

/-- `sort_csv_file` on the in-memory representation of one CSV file: the
header row is kept, the sort columns are resolved against it and the data
records are stably sorted by `record_comparator`. -/
def sort_csv_file (header_row : List String) (records : List (List String))
    (sort_columns : List String) : List String × List (List String) :=
  let sort_order := get_sort_order header_row sort_columns
  (header_row, records.mergeSort (recordLe sort_order))

/-- Per-file behaviour of the sort-stage worker in `sort_output_files`:
`if let Some(sc) = sort_columns { sort_csv_file(path, sc) }` — the file is
read and rewritten exactly when `sort_columns` is present (even when the
present sequence is empty); otherwise it is left untouched. -/
def sort_stage_file (sort_columns : Option (List String))
    (header_row : List String) (records : List (List String)) :
    List String × List (List String) :=
  match sort_columns with
  | some sc => sort_csv_file header_row records sc
  | none => (header_row, records)

/-- Whether the sort-stage worker invokes `sort_csv_file` on the output
file of a configuration (the `if let Some(sc)` test in `sort_output_files`). -/
def sort_stage_rewrites (config : FilterConfig) : Bool :=
  config.sort_columns.isSome

/-! ## Top level (`src/lib.rs`) -/

/-- The error returned by `validate_config`, structured by which `format!`
string produced it. `noOutputColumns o` stands for
"Config for output file 'o' does not contain any output columns",
`valuesAndRange o` for
"Config for output file 'o' defines values and a range (min/max)", and
`badSortColumn o c` for
"Config for output file 'o' contains sort column 'c' which is not part of
the output file". -/
inductive ConfigError where
  | noOutputColumns (output : String)
  | valuesAndRange (output : String)
  | badSortColumn (output : String) (column : String)
  deriving DecidableEq

/-- The output identifier named by a `ConfigError` (each `format!` string of
`validate_config` embeds `config.output`). -/
def ConfigError.outputName : ConfigError → String
  | .noOutputColumns o => o
  | .valuesAndRange o => o
  | .badSortColumn o _ => o

/-- `validate_config`: checks, in order, that (a) at least one column is
included in the output, (b) no column filter combines `values` with
`min`/`max`, (c) every sort column occurs among the included columns (the
`included_columns` vector computed inline in the source is exactly
`get_output_columns`).  The first violated check produces the error. -/
def validate_config (config : FilterConfig) : Except ConfigError Unit :=
  if config.filters.all (fun f => f.«include» = false) then
    .error (.noOutputColumns config.output)
  else
    match config.filters.find? (fun cf => cf.values.isSome && (cf.max.isSome || cf.min.isSome)) with
    | some _ => .error (.valuesAndRange config.output)
    | none =>
      match config.sort_columns with
      | some sort_columns =>
        match sort_columns.find? (fun column => !(get_output_columns config).contains column) with
        | some column => .error (.badSortColumn config.output column)
        | none => .ok ()
      | none => .ok ()

/-- `read_filter_configs` after deserialisation and validation: the
configurations are moved into the result by repeatedly popping from the
back of the deserialised list, so the list handed to the rest of the
pipeline is the configuration file's list reversed. -/
def read_filter_configs (read_configs : List FilterConfig) : List FilterConfig :=
  read_configs.reverse

/-- `create_output_files`: for each configuration, in order over the list
produced by `read_filter_configs`, a fresh writer for the path named by
`config.output` is created and inserted into the map keyed by
`config.output` (an insert for an existing key replaces the stored
writer).  A writer is identified here by the position, in the iterated
list, of the configuration whose iteration created it, so the map is the
`create_headers_map` insertion loop run over the output names. -/
def create_output_files (all_filter_configs : List FilterConfig) :
    String → Option Nat :=
  create_headers_map_loop (fun _ => none) 0
    (all_filter_configs.map (fun config => config.output))

/-- `write_headers_to_output_files`, restricted to one output file: every
configuration naming this output writes its header record (its included
column names) through the single writer stored for that name, in iteration
order; so the file receives this sequence of records. -/
def write_headers_to_output_files (all_filter_configs : List FilterConfig)
    (output : String) : List (List String) :=
  (all_filter_configs.filter (fun cfg => cfg.output = output)).map get_output_columns

/-- Verification-side helper: the index of the last occurrence of a string
in a list (`none` when absent).  Used to characterise the last-write-wins
insertion loops. -/
def lastOcc : List String → String → Option Nat
  | [], _ => none
  | h :: rest, name =>
    match lastOcc rest name with
    | some k => some (k + 1)
    | none => if h = name then some 0 else none

/-- Verification-side helper: the total-order view of `record_comparator`,
reading an out-of-range field as `""`.  On records whose fields exist at
every compared index it agrees with `record_comparator` (see
`record_comparator_eq_total`); unlike it, it is a total preorder on all
records, which is what the `mergeSort` lemmas need. -/
def record_comparator_total (header_map : List Nat) (a b : List String) : Ordering :=
  match header_map with
  | [] => .eq
  | column_index :: rest =>
    match strCmp (a.getD column_index "") (b.getD column_index "") with
    | .eq => record_comparator_total rest a b
    | o => o

/-- The boolean "less or equal" view of `record_comparator_total`. -/
def recordLeTotal (header_map : List Nat) (a b : List String) : Bool :=
  record_comparator_total header_map a b ≠ .gt

/-- `cmp::max(1, filter_parallelism)` in `process`: the number of worker
threads spawned for the filter stage. -/
def filter_max_threads (filter_parallelism : Nat) : Nat :=
  max 1 filter_parallelism

/-- `cmp::max(1, sort_parallelism)` in `process`: the number of worker
threads spawned for the sort stage. -/
def sort_max_threads (sort_parallelism : Nat) : Nat :=
  max 1 sort_parallelism

/-! ## Helper lemmas -/

theorem strCmp_eq_eq {a b : String} : strCmp a b = .eq ↔ a = b := by
  unfold strCmp
  split_ifs with h1 h2
  · exact iff_of_false (by simp) (ne_of_lt h1)
  · exact iff_of_true rfl h2
  · exact iff_of_false (by simp) h2

theorem strCmp_eq_lt {a b : String} : strCmp a b = .lt ↔ a < b := by
  unfold strCmp
  split_ifs with h1 h2
  · exact iff_of_true rfl h1
  · exact iff_of_false (by simp) (by rw [h2]; exact lt_irrefl b)
  · exact iff_of_false (by simp) h1

theorem strCmp_eq_gt {a b : String} : strCmp a b = .gt ↔ b < a := by
  unfold strCmp
  split_ifs with h1 h2
  · exact iff_of_false (by simp) (asymm h1)
  · exact iff_of_false (by simp) (by rw [h2]; exact lt_irrefl b)
  · exact iff_of_true rfl (lt_of_le_of_ne (not_lt.mp h1) (Ne.symm h2))

theorem strCmp_swap (a b : String) : strCmp b a = (strCmp a b).swap := by
  rcases lt_trichotomy a b with h | h | h
  · rw [strCmp_eq_lt.mpr h, strCmp_eq_gt.mpr h]
    rfl
  · rw [strCmp_eq_eq.mpr h, strCmp_eq_eq.mpr h.symm]
    rfl
  · rw [strCmp_eq_gt.mpr h, strCmp_eq_lt.mpr h]
    rfl

theorem lastOcc_eq_none {hs : List String} {name : String} :
    lastOcc hs name = none ↔ name ∉ hs := by
  induction hs with
  | nil => simp [lastOcc]
  | cons h rest ih =>
    simp only [lastOcc]
    cases hr : lastOcc rest name with
    | some k =>
      have hmem : name ∈ rest := by
        by_contra hc
        rw [ih.mpr hc] at hr
        cases hr
      simp [hmem]
    | none =>
      have hnotin : name ∉ rest := ih.mp hr
      by_cases he : h = name
      · subst he
        simp
      · simp only [if_neg he, List.mem_cons, true_iff]
        rintro (rfl | hmem)
        · exact he rfl
        · exact hnotin hmem

theorem lastOcc_eq_some {hs : List String} {name : String} {i : Nat} :
    lastOcc hs name = some i ↔
      ∃ pre post, hs = pre ++ name :: post ∧ pre.length = i ∧ name ∉ post := by
  constructor
  · intro h
    induction hs generalizing i with
    | nil => cases h
    | cons hd rest ih =>
      simp only [lastOcc] at h
      cases hr : lastOcc rest name with
      | some k =>
        rw [hr] at h
        cases h
        obtain ⟨pre, post, hsplit, hlen, hnot⟩ := ih hr
        exact ⟨hd :: pre, post, by simp [hsplit], by simp [hlen], hnot⟩
      | none =>
        rw [hr] at h
        split_ifs at h with he
        cases h
        exact ⟨[], rest, by simp [he], rfl, lastOcc_eq_none.mp hr⟩
  · rintro ⟨pre, post, rfl, rfl, hnot⟩
    induction pre with
    | nil =>
      simp [lastOcc, lastOcc_eq_none.mpr hnot]
    | cons hd pre ih =>
      simp only [List.cons_append, lastOcc, List.append_eq, ih, List.length_cons]

theorem create_headers_map_loop_of_none {hs : List String} {name : String}
    (h : lastOcc hs name = none) (m : String → Option Nat) (index : Nat) :
    create_headers_map_loop m index hs name = m name := by
  induction hs generalizing m index with
  | nil => rfl
  | cons hd rest ih =>
    simp only [lastOcc] at h
    cases hr : lastOcc rest name with
    | some k => rw [hr] at h; cases h
    | none =>
      rw [hr] at h
      split_ifs at h with he
      simp only [create_headers_map_loop, ih hr]
      rw [if_neg (fun hh => he hh.symm)]

theorem create_headers_map_loop_of_some {hs : List String} {name : String} {k : Nat}
    (h : lastOcc hs name = some k) (m : String → Option Nat) (index : Nat) :
    create_headers_map_loop m index hs name = some (index + k) := by
  induction hs generalizing m index k with
  | nil => cases h
  | cons hd rest ih =>
    simp only [lastOcc] at h
    cases hr : lastOcc rest name with
    | some k' =>
      rw [hr] at h
      cases h
      simp only [create_headers_map_loop, ih hr]
      congr 1
      omega
    | none =>
      rw [hr] at h
      split_ifs at h with he
      cases h
      simp only [create_headers_map_loop, create_headers_map_loop_of_none hr]
      rw [if_pos he.symm]
      simp

theorem create_headers_map_eq_lastOcc (hs : List String) (name : String) :
    create_headers_map hs name = lastOcc hs name := by
  rw [create_headers_map]
  cases hr : lastOcc hs name with
  | some k =>
    rw [create_headers_map_loop_of_some hr]
    simp
  | none =>
    rw [create_headers_map_loop_of_none hr]

theorem create_output_files_eq_lastOcc (configs : List FilterConfig) (o : String) :
    create_output_files configs o =
      lastOcc (configs.map (fun config => config.output)) o := by
  rw [create_output_files]
  cases hr : lastOcc (configs.map (fun config => config.output)) o with
  | some k =>
    rw [create_headers_map_loop_of_some hr]
    simp
  | none =>
    rw [create_headers_map_loop_of_none hr]

/-! ## Claims -/

/-- C7: `create_headers_map` maps each column name of the header record to
its 0-based position, and when a name occurs more than once the name maps
to the position of its last occurrence (last write wins); a name that does
not occur is unmapped. -/
theorem create_headers_map_spec (headers : List String) (name : String) :
    (∀ i, create_headers_map headers name = some i ↔
       ∃ pre post, headers = pre ++ name :: post ∧ pre.length = i ∧ name ∉ post)
    ∧ (create_headers_map headers name = none ↔ name ∉ headers) := by
  refine ⟨fun i => ?_, ?_⟩ <;> rw [create_headers_map_eq_lastOcc]
  · exact lastOcc_eq_some
  · exact lastOcc_eq_none

/-- Witness for C7: on the header record `["id", "category", "id"]` the
repeated name `"id"` is mapped to the index 2 of its last occurrence. -/
theorem create_headers_map_spec_witness :
    create_headers_map ["id", "category", "id"] "id" = some 2 :=
  ((create_headers_map_spec ["id", "category", "id"] "id").1 2).mpr
    ⟨["id", "category"], [], rfl, rfl, by simp⟩

/-- C5 counterexample: with two rules targeting the same output identifier
`"out.csv"`, the loading stage reverses the configuration list, so the
routing-table entry that survives (the last insertion) is the writer
created during the iteration of the FIRST rule of the configuration file
(the rule filtering on column `"a"`), not the last rule's writer as
claimed. -/
theorem routing_last_rule_writer_counterexample :
    create_output_files
        (read_filter_configs
          [⟨[⟨"a", true, none, none, none⟩], "out.csv", none⟩,
           ⟨[⟨"b", true, none, none, none⟩], "out.csv", none⟩]) "out.csv" = some 1
    ∧ (read_filter_configs
          [⟨[⟨"a", true, none, none, none⟩], "out.csv", none⟩,
           ⟨[⟨"b", true, none, none, none⟩], "out.csv", none⟩])[1]? =
        some ⟨[⟨"a", true, none, none, none⟩], "out.csv", none⟩
    ∧ (⟨[⟨"a", true, none, none, none⟩], "out.csv", none⟩ : FilterConfig)
        ≠ ⟨[⟨"b", true, none, none, none⟩], "out.csv", none⟩ := by
  refine ⟨rfl, rfl, ?_⟩
  decide

/-- C5 (amended): when several rules target the same output identifier,
the configurations are iterated in reverse configuration-file order, so
every such rule's header record is appended to the shared file, the
file's first (header) record is the LAST such rule's header, and the
routing table retains the writer created for the FIRST such rule of the
configuration file (all those writers target the same path). -/
theorem routing_table_ownership (L : List FilterConfig) (o : String) :
    write_headers_to_output_files (read_filter_configs L) o =
        ((L.filter (fun c => c.output = o)).map get_output_columns).reverse
    ∧ (write_headers_to_output_files (read_filter_configs L) o).head? =
        ((L.filter (fun c => c.output = o)).getLast?).map get_output_columns
    ∧ (∀ i, create_output_files (read_filter_configs L) o = some i →
        (read_filter_configs L)[i]? = L.find? (fun c => c.output = o)) := by
  have h1 : write_headers_to_output_files (read_filter_configs L) o =
      ((L.filter (fun c => c.output = o)).map get_output_columns).reverse := by
    simp [write_headers_to_output_files, read_filter_configs, List.filter_reverse,
      List.map_reverse]
  refine ⟨h1, ?_, ?_⟩
  · rw [h1]
    simp [List.head?_reverse, List.getLast?_map]
  · intro i hi
    rw [create_output_files_eq_lastOcc] at hi
    obtain ⟨pre, post, hsplit, hlen, hnot⟩ := lastOcc_eq_some.mp hi
    obtain ⟨R1, R2', hR, hpre, hrest⟩ := List.map_eq_append_iff.mp hsplit
    obtain ⟨cfg, R2, hR2', hcfg, hpost⟩ := List.map_eq_cons_iff.mp hrest
    subst hR2'
    have hilen : i = R1.length := by
      rw [← hlen]
      rw [← hpre]
      simp
    have hgetElem : (read_filter_configs L)[i]? = some cfg := by
      rw [hR, hilen]
      rw [List.getElem?_append_right (by omega)]
      simp
    have hfind : L.find? (fun c => c.output = o) = some cfg := by
      have hLrev : L = (read_filter_configs L).reverse := by
        simp [read_filter_configs]
      rw [hLrev, hR]
      simp only [List.reverse_append, List.reverse_cons, List.find?_append,
        List.append_assoc]
      have hnone : R2.reverse.find? (fun c => c.output = o) = none := by
        rw [List.find?_eq_none]
        intro x hx
        have : x.output ∈ post := by
          rw [← hpost]
          exact List.mem_map_of_mem _ (List.mem_reverse.mp hx)
        simp only [decide_eq_true_eq]
        intro hxo
        exact hnot (hxo ▸ this)
      rw [hnone]
      simp [hcfg]
    rw [hgetElem, hfind]

/-- Witness for C5 (amended): on a concrete pair of rules sharing the
output `"o.csv"`, the surviving routing-table writer (index 1 of the
reversed list) was created for the first rule of the file. -/
theorem routing_table_ownership_witness :
    (read_filter_configs
        [⟨[⟨"a", true, none, none, none⟩], "o.csv", none⟩,
         ⟨[⟨"b", true, none, none, none⟩], "o.csv", none⟩])[1]? =
      List.find? (fun c => c.output = "o.csv")
        [⟨[⟨"a", true, none, none, none⟩], "o.csv", none⟩,
         ⟨[⟨"b", true, none, none, none⟩], "o.csv", none⟩] :=
  (routing_table_ownership
    [⟨[⟨"a", true, none, none, none⟩], "o.csv", none⟩,
     ⟨[⟨"b", true, none, none, none⟩], "o.csv", none⟩] "o.csv").2.2 1 (by decide)

/-- C9: in both phases the number of worker threads actually used equals
the requested parallelism when it is at least 1, and equals 1 when the
caller requests 0 (`cmp::max(1, _)` in `process`). -/
theorem worker_thread_counts (p : Nat) :
    (1 ≤ p → filter_max_threads p = p ∧ sort_max_threads p = p)
    ∧ filter_max_threads 0 = 1 ∧ sort_max_threads 0 = 1 := by
  refine ⟨fun h => ⟨?_, ?_⟩, rfl, rfl⟩ <;>
    simp [filter_max_threads, sort_max_threads, Nat.max_eq_right h]

/-- Witness for C9: requesting 7 threads uses 7 in both phases, and
requesting 0 uses 1. -/
theorem worker_thread_counts_witness :
    (filter_max_threads 7 = 7 ∧ sort_max_threads 7 = 7)
    ∧ filter_max_threads 0 = 1 ∧ sort_max_threads 0 = 1 :=
  ⟨(worker_thread_counts 7).1 (by decide), (worker_thread_counts 7).2⟩

/-- C4: `validate_config` returns an error naming the rule's output
identifier exactly when (a) no column filter has `include = true`, or
(b) some column filter combines a value set with a `min` or `max` bound,
or (c) some declared sort column is not among the included column names;
a `badSortColumn` error also names an offending sort column; otherwise
validation succeeds (it is a pure function, so it has no side effects). -/
theorem validate_config_spec (config : FilterConfig) :
    ((∃ e, validate_config config = .error e) ↔
       ((∀ f ∈ config.filters, f.«include» = false)
        ∨ (∃ cf ∈ config.filters, cf.values.isSome ∧ (cf.max.isSome ∨ cf.min.isSome))
        ∨ (∃ sc, config.sort_columns = some sc ∧
             ∃ col ∈ sc, col ∉ get_output_columns config)))
    ∧ (∀ e, validate_config config = .error e → e.outputName = config.output)
    ∧ (∀ o col, validate_config config = .error (.badSortColumn o col) →
         ∃ sc, config.sort_columns = some sc ∧ col ∈ sc ∧
           col ∉ get_output_columns config)
    ∧ (¬ ((∀ f ∈ config.filters, f.«include» = false)
        ∨ (∃ cf ∈ config.filters, cf.values.isSome ∧ (cf.max.isSome ∨ cf.min.isSome))
        ∨ (∃ sc, config.sort_columns = some sc ∧
             ∃ col ∈ sc, col ∉ get_output_columns config))
       → validate_config config = .ok ()) := by
  by_cases hA : config.filters.all (fun f => f.«include» = false)
  · have hval : validate_config config = .error (.noOutputColumns config.output) := by
      unfold validate_config
      rw [if_pos hA]
    have hAp : ∀ f ∈ config.filters, f.«include» = false := by
      simpa using List.all_eq_true.mp hA
    rw [hval]
    refine ⟨iff_of_true ⟨_, rfl⟩ (Or.inl hAp), ?_, ?_, ?_⟩
    · rintro e he
      cases he
      rfl
    · rintro o col he
      cases he
    · intro hcon
      exact absurd (Or.inl hAp) hcon
  · have hAp : ¬ ∀ f ∈ config.filters, f.«include» = false := by
      intro hcon
      exact hA (List.all_eq_true.mpr (by simpa using hcon))
    cases hB : config.filters.find? (fun cf => cf.values.isSome && (cf.max.isSome || cf.min.isSome)) with
    | some cf =>
      have hval : validate_config config = .error (.valuesAndRange config.output) := by
        unfold validate_config
        rw [if_neg hA, hB]
      have hmem := List.mem_of_find?_eq_some hB
      have hpred := List.find?_some hB
      simp only [Bool.and_eq_true, Bool.or_eq_true] at hpred
      rw [hval]
      refine ⟨iff_of_true ⟨_, rfl⟩ (Or.inr (Or.inl ⟨cf, hmem, hpred.1, hpred.2⟩)), ?_, ?_, ?_⟩
      · rintro e he
        cases he
        rfl
      · rintro o col he
        cases he
      · intro hcon
        exact absurd (Or.inr (Or.inl ⟨cf, hmem, hpred.1, hpred.2⟩)) hcon
    | none =>
      have hBp : ¬ ∃ cf ∈ config.filters, cf.values.isSome ∧ (cf.max.isSome ∨ cf.min.isSome) := by
        rintro ⟨cf, hmem, hv, hmm⟩
        have := List.find?_eq_none.mp hB cf hmem
        simp only [Bool.and_eq_true, Bool.or_eq_true] at this
        exact this ⟨hv, hmm⟩
      cases hsc : config.sort_columns with
      | none =>
        have hval : validate_config config = .ok () := by
          unfold validate_config
          rw [if_neg hA, hB, hsc]
        rw [hval]
        refine ⟨iff_of_false (by rintro ⟨e, he⟩; cases he) ?_, ?_, ?_, fun _ => rfl⟩
        · rintro (h | h | ⟨sc, hsceq, -⟩)
          · exact hAp h
          · exact hBp h
          · cases hsceq
        · rintro e he
          cases he
        · rintro o col he
          cases he
      | some sc =>
        cases hf : sc.find? (fun column => !(get_output_columns config).contains column) with
        | some col =>
          have hval : validate_config config = .error (.badSortColumn config.output col) := by
            unfold validate_config
            rw [if_neg hA, hB, hsc]
            show (match sc.find? (fun column => !(get_output_columns config).contains column) with
                  | some column => Except.error (ConfigError.badSortColumn config.output column)
                  | none => Except.ok ()) = _
            rw [hf]
          have hmem := List.mem_of_find?_eq_some hf
          have hpred := List.find?_some hf
          have hnotin : col ∉ get_output_columns config := by
            simpa using hpred
          rw [hval]
          refine ⟨iff_of_true ⟨_, rfl⟩ (Or.inr (Or.inr ⟨sc, rfl, col, hmem, hnotin⟩)), ?_, ?_, ?_⟩
          · rintro e he
            cases he
            rfl
          · rintro o' col' he
            cases he
            exact ⟨sc, rfl, hmem, hnotin⟩
          · intro hcon
            exact absurd (Or.inr (Or.inr ⟨sc, rfl, col, hmem, hnotin⟩)) hcon
        | none =>
          have hval : validate_config config = .ok () := by
            unfold validate_config
            rw [if_neg hA, hB, hsc]
            show (match sc.find? (fun column => !(get_output_columns config).contains column) with
                  | some column => Except.error (ConfigError.badSortColumn config.output column)
                  | none => Except.ok ()) = _
            rw [hf]
          have hCp : ∀ col ∈ sc, col ∈ get_output_columns config := by
            intro col hmem
            have := List.find?_eq_none.mp hf col hmem
            simpa using this
          rw [hval]
          refine ⟨iff_of_false (by rintro ⟨e, he⟩; cases he) ?_, ?_, ?_, fun _ => rfl⟩
          · rintro (h | h | ⟨sc', hsceq, col, hcmem, hcnot⟩)
            · exact hAp h
            · exact hBp h
            · cases hsceq
              exact hcnot (hCp col hcmem)
          · rintro e he
            cases he
          · rintro o col he
            cases he

/-- Witness for C4: a configuration whose single column filter has
`include = false` is rejected by validation. -/
theorem validate_config_spec_witness :
    ∃ e, validate_config ⟨[⟨"x", false, none, none, none⟩], "w.csv", none⟩ = .error e :=
  (validate_config_spec ⟨[⟨"x", false, none, none, none⟩], "w.csv", none⟩).1.mpr
    (Or.inl (by decide))

theorem matches_filters_spec (csv_record : List String) (headers : String → Option Nat)
    (fs : List ColumnFilter)
    (hidx : ∀ cf ∈ fs, ∀ idx, headers cf.column = some idx → idx < csv_record.length) :
    matches_filters csv_record headers fs = some true ↔
      ∀ cf ∈ fs, ∀ idx, headers cf.column = some idx →
        (∀ vs, cf.values = some vs → csv_record.getD idx "" ∈ vs)
        ∧ (∀ mn, cf.min = some mn → mn ≤ csv_record.getD idx "")
        ∧ (∀ mx, cf.max = some mx → csv_record.getD idx "" ≤ mx) := by
  induction fs with
  | nil => simp [matches_filters]
  | cons cf rest ih =>
    have hidx' : ∀ c ∈ rest, ∀ idx, headers c.column = some idx → idx < csv_record.length :=
      fun c hc => hidx c (List.mem_cons_of_mem _ hc)
    simp only [matches_filters]
    cases hh : headers cf.column with
    | none =>
      rw [ih hidx']
      constructor
      · intro h c hc idx' hin
        rcases List.mem_cons.mp hc with rfl | hc'
        · rw [hh] at hin
          cases hin
        · exact h c hc' idx' hin
      · intro h c hc idx' hin
        exact h c (List.mem_cons_of_mem _ hc) idx' hin
    | some idx =>
      have hlt : idx < csv_record.length := hidx cf (List.mem_cons_self _ _) idx hh
      have hget : csv_record[idx]? = some (csv_record.getD idx "") := by
        rw [List.getElem?_eq_getElem hlt, List.getD_eq_getElem?_getD,
          List.getElem?_eq_getElem hlt]
        rfl
      simp only [hget]
      by_cases h1 : (match cf.values with
          | some allowed_values => !allowed_values.contains (csv_record.getD idx "")
          | none => false) = true
      · rw [if_pos h1]
        refine iff_of_false (by simp) ?_
        intro hcon
        obtain ⟨hvs, -, -⟩ := hcon cf (List.mem_cons_self _ _) idx hh
        cases hval : cf.values with
        | none => rw [hval] at h1; cases h1
        | some vs =>
          rw [hval] at h1
          simp only [Bool.not_eq_true'] at h1
          have hmem : csv_record.getD idx "" ∈ vs := hvs vs hval
          simp only [List.elem_eq_mem, decide_eq_false_iff_not] at h1
          exact h1 hmem
      · rw [if_neg h1]
        by_cases h2 : (match cf.min with
            | some min => decide (csv_record.getD idx "" < min)
            | none => false) = true
        · rw [if_pos h2]
          refine iff_of_false (by simp) ?_
          intro hcon
          obtain ⟨-, hmn, -⟩ := hcon cf (List.mem_cons_self _ _) idx hh
          cases hval : cf.min with
          | none => rw [hval] at h2; cases h2
          | some mn =>
            rw [hval] at h2
            simp only [decide_eq_true_eq] at h2
            exact absurd (hmn mn hval) (not_le_of_lt h2)
        · rw [if_neg h2]
          by_cases h3 : (match cf.max with
              | some max => decide (csv_record.getD idx "" > max)
              | none => false) = true
          · rw [if_pos h3]
            refine iff_of_false (by simp) ?_
            intro hcon
            obtain ⟨-, -, hmx⟩ := hcon cf (List.mem_cons_self _ _) idx hh
            cases hval : cf.max with
            | none => rw [hval] at h3; cases h3
            | some mx =>
              rw [hval] at h3
              simp only [decide_eq_true_eq] at h3
              exact absurd (hmx mx hval) (not_le_of_lt h3)
          · rw [if_neg h3]
            rw [ih hidx']
            have hcfok : (∀ vs, cf.values = some vs → csv_record.getD idx "" ∈ vs)
                ∧ (∀ mn, cf.min = some mn → mn ≤ csv_record.getD idx "")
                ∧ (∀ mx, cf.max = some mx → csv_record.getD idx "" ≤ mx) := by
              refine ⟨?_, ?_, ?_⟩
              · intro vs hval
                rw [hval] at h1
                simp only [Bool.not_eq_true', Bool.not_eq_false, List.elem_eq_mem,
                  decide_eq_true_eq] at h1
                exact h1
              · intro mn hval
                rw [hval] at h2
                simp only [decide_eq_true_eq] at h2
                exact not_lt.mp h2
              · intro mx hval
                rw [hval] at h3
                simp only [decide_eq_true_eq] at h3
                exact not_lt.mp h3
            constructor
            · intro h c hc idx' hin
              rcases List.mem_cons.mp hc with rfl | hc'
              · rw [hh] at hin
                cases hin
                exact hcfok
              · exact h c hc' idx' hin
            · intro h c hc idx' hin
              exact h c (List.mem_cons_of_mem _ hc) idx' hin

/-- C1: a record matches a filter configuration if and only if every
column filter whose column is present in the header index is satisfied on
the record's field at that index: membership in the value set when one is
present, at least the minimum and at most the maximum (lexicographic
string order) when present.  Column filters naming absent columns are
skipped, and a configuration with no column filters matches every record.
(The hypothesis mirrors the CSV reader's guarantee that every header index
points inside the record.) -/
theorem record_matches_filter_config_spec (csv_record : List String)
    (config : FilterConfig) (headers : String → Option Nat)
    (hidx : ∀ cf ∈ config.filters, ∀ idx, headers cf.column = some idx →
      idx < csv_record.length) :
    record_matches_filter_config csv_record config headers = some true ↔
      ∀ cf ∈ config.filters, ∀ idx, headers cf.column = some idx →
        (∀ vs, cf.values = some vs → csv_record.getD idx "" ∈ vs)
        ∧ (∀ mn, cf.min = some mn → mn ≤ csv_record.getD idx "")
        ∧ (∀ mx, cf.max = some mx → csv_record.getD idx "" ≤ mx) :=
  matches_filters_spec csv_record headers config.filters hidx

/-- Witness for C1: the record `["5", "q"]` with header index from
`["x", "y"]` matches a configuration requiring `"3" ≤ x ≤ "7"` together
with a filter on the absent column `"z"` (skipped). -/
theorem record_matches_filter_config_spec_witness :
    record_matches_filter_config ["5", "q"]
      ⟨[⟨"x", true, none, some "3", some "7"⟩, ⟨"z", false, some ["v"], none, none⟩],
        "o.csv", none⟩
      (create_headers_map ["x", "y"]) = some true := by
  refine (record_matches_filter_config_spec ["5", "q"]
      ⟨[⟨"x", true, none, some "3", some "7"⟩, ⟨"z", false, some ["v"], none, none⟩],
        "o.csv", none⟩
      (create_headers_map ["x", "y"]) ?_).mpr ?_
  · intro cf hcf idx hin
    rcases List.mem_cons.mp hcf with rfl | hcf'
    · rw [show create_headers_map ["x", "y"] "x" = some 0 from rfl] at hin
      cases hin
      decide
    · rcases List.mem_singleton.mp hcf' with rfl
      rw [show create_headers_map ["x", "y"] "z" = none from rfl] at hin
      cases hin
  · intro cf hcf idx hin
    rcases List.mem_cons.mp hcf with rfl | hcf'
    · rw [show create_headers_map ["x", "y"] "x" = some 0 from rfl] at hin
      cases hin
      refine ⟨?_, ?_, ?_⟩
      · intro vs hval
        cases hval
      · intro mn hval
        cases hval
        rw [String.le_iff_toList_le]
        decide
      · intro mx hval
        cases hval
        rw [String.le_iff_toList_le]
        decide
    · rcases List.mem_singleton.mp hcf' with rfl
      rw [show create_headers_map ["x", "y"] "z" = none from rfl] at hin
      cases hin

theorem build_output_loop_some (csv_record : List String) (headers : String → Option Nat)
    (names : List String)
    (hidx : ∀ name idx, headers name = some idx → idx < csv_record.length)
    (hall : ∀ name ∈ names, (headers name).isSome) :
    build_output_loop csv_record headers names =
      some (names.map (fun n => csv_record.getD ((headers n).getD 0) "")) := by
  induction names with
  | nil => rfl
  | cons n rest ih =>
    obtain ⟨idx, hidxeq⟩ := Option.isSome_iff_exists.mp (hall n (List.mem_cons_self _ _))
    have hlt := hidx n idx hidxeq
    obtain ⟨v, hv⟩ : ∃ v, csv_record[idx]? = some v := ⟨_, List.getElem?_eq_getElem hlt⟩
    have hvd : csv_record.getD idx "" = v := by
      rw [List.getD_eq_getElem?_getD, hv]
      rfl
    have ihall : ∀ name ∈ rest, (headers name).isSome :=
      fun name hm => hall name (List.mem_cons_of_mem _ hm)
    simp [build_output_loop, hidxeq, hv, hvd, ih ihall]

theorem build_output_loop_none_iff (csv_record : List String)
    (headers : String → Option Nat) (names : List String)
    (hidx : ∀ name idx, headers name = some idx → idx < csv_record.length) :
    build_output_loop csv_record headers names = none ↔
      ∃ name ∈ names, headers name = none := by
  induction names with
  | nil => simp [build_output_loop]
  | cons n rest ih =>
    cases hh : headers n with
    | none =>
      exact iff_of_true (by simp [build_output_loop, hh]) ⟨n, List.mem_cons_self _ _, hh⟩
    | some idx =>
      have hlt := hidx n idx hh
      obtain ⟨v, hv⟩ : ∃ v, csv_record[idx]? = some v := ⟨_, List.getElem?_eq_getElem hlt⟩
      cases hb : build_output_loop csv_record headers rest with
      | none =>
        refine iff_of_true (by simp [build_output_loop, hh, hv, hb]) ?_
        obtain ⟨name, hm, hnone⟩ := ih.mp hb
        exact ⟨name, List.mem_cons_of_mem _ hm, hnone⟩
      | some tail =>
        refine iff_of_false (by simp [build_output_loop, hh, hv, hb]) ?_
        rintro ⟨name, hm, hnone⟩
        rcases List.mem_cons.mp hm with rfl | hm'
        · rw [hh] at hnone
          cases hnone
        · have hcontra : build_output_loop csv_record headers rest = none :=
            ih.mpr ⟨name, hm', hnone⟩
          rw [hb] at hcontra
          cases hcontra

/-- C3: the projection `build_output_record` returns exactly the record's
fields at the header-index positions of the configuration's included
columns, in declaration order (`get_output_columns`), and it fails (the
`SchemaError` panic, modelled as `none`) if and only if some included
column name is absent from the header index.  (The hypothesis mirrors the
CSV reader's guarantee that every header index points inside the record.) -/
theorem build_output_record_spec (csv_record : List String) (config : FilterConfig)
    (headers : String → Option Nat)
    (hidx : ∀ name idx, headers name = some idx → idx < csv_record.length) :
    ((∀ name ∈ get_output_columns config, (headers name).isSome) →
        build_output_record csv_record config headers =
          some ((get_output_columns config).map
            (fun n => csv_record.getD ((headers n).getD 0) "")))
    ∧ (build_output_record csv_record config headers = none ↔
        ∃ name ∈ get_output_columns config, headers name = none) :=
  ⟨fun hall => build_output_loop_some csv_record headers (get_output_columns config) hidx hall,
   build_output_loop_none_iff csv_record headers (get_output_columns config) hidx⟩

/-- Witness for C3: projecting the record `["5", "q"]` (headers
`["x", "y"]`) through a configuration that includes `"y"` then `"x"`
yields `["q", "5"]` — the rule's declaration order, not the input order. -/
theorem build_output_record_spec_witness :
    build_output_record ["5", "q"]
      ⟨[⟨"y", true, none, none, none⟩, ⟨"x", true, none, none, none⟩], "o2.csv", none⟩
      (create_headers_map ["x", "y"]) = some ["q", "5"] := by
  have h := (build_output_record_spec ["5", "q"]
      ⟨[⟨"y", true, none, none, none⟩, ⟨"x", true, none, none, none⟩], "o2.csv", none⟩
      (create_headers_map ["x", "y"]) ?_).1 (by decide)
  · exact h.trans (by rfl)
  · intro name idx hin
    by_cases hx : name = "x"
    · subst hx
      rw [show create_headers_map ["x", "y"] "x" = some 0 from rfl] at hin
      cases hin
      decide
    · by_cases hy : name = "y"
      · subst hy
        rw [show create_headers_map ["x", "y"] "y" = some 1 from rfl] at hin
        cases hin
        decide
      · rw [show create_headers_map ["x", "y"] name =
            (if name = "y" then some 1 else if name = "x" then some 0 else none) from rfl] at hin
        rw [if_neg hy, if_neg hx] at hin
        cases hin

theorem record_comparator_some_total {idxs : List Nat} {a b : List String} {o : Ordering}
    (h : record_comparator a b idxs = some o) : record_comparator_total idxs a b = o := by
  induction idxs generalizing o with
  | nil =>
    cases h
    rfl
  | cons i rest ih =>
    simp only [record_comparator] at h
    cases ha : a[i]? with
    | none =>
      simp only [ha] at h
      cases h
    | some va =>
      cases hb : b[i]? with
      | none =>
        simp only [ha, hb] at h
        cases h
      | some vb =>
        simp only [ha, hb] at h
        have hga : a.getD i "" = va := by
          rw [List.getD_eq_getElem?_getD, ha]
          rfl
        have hgb : b.getD i "" = vb := by
          rw [List.getD_eq_getElem?_getD, hb]
          rfl
        simp only [record_comparator_total, hga, hgb]
        cases hc : strCmp va vb with
        | eq =>
          simp only [hc] at h
          exact ih h
        | lt =>
          simp only [hc] at h
          cases h
          rfl
        | gt =>
          simp only [hc] at h
          cases h
          rfl

theorem record_comparator_of_inRange (a b : List String) (idxs : List Nat)
    (h : ∀ i ∈ idxs, i < a.length ∧ i < b.length) :
    record_comparator a b idxs = some (record_comparator_total idxs a b) := by
  induction idxs with
  | nil => rfl
  | cons i rest ih =>
    obtain ⟨hia, hib⟩ := h i (List.mem_cons_self _ _)
    have ha : a[i]? = some (a.getD i "") := by
      rw [List.getElem?_eq_getElem hia, List.getD_eq_getElem?_getD,
        List.getElem?_eq_getElem hia]
      rfl
    have hb : b[i]? = some (b.getD i "") := by
      rw [List.getElem?_eq_getElem hib, List.getD_eq_getElem?_getD,
        List.getElem?_eq_getElem hib]
      rfl
    simp only [record_comparator, record_comparator_total, ha, hb]
    cases hc : strCmp (a.getD i "") (b.getD i "") with
    | eq => exact ih (fun k hk => h k (List.mem_cons_of_mem _ hk))
    | lt => rfl
    | gt => rfl

theorem record_comparator_total_swap (idxs : List Nat) (a b : List String) :
    record_comparator_total idxs b a = (record_comparator_total idxs a b).swap := by
  induction idxs with
  | nil => rfl
  | cons i rest ih =>
    simp only [record_comparator_total]
    rw [strCmp_swap]
    cases hc : strCmp (a.getD i "") (b.getD i "") <;> simp [Ordering.swap, ih]

theorem recordLeTotal_trans (idxs : List Nat) (a b c : List String)
    (h1 : recordLeTotal idxs a b = true) (h2 : recordLeTotal idxs b c = true) :
    recordLeTotal idxs a c = true := by
  simp only [recordLeTotal, ne_eq, decide_eq_true_eq] at h1 h2 ⊢
  induction idxs with
  | nil => simp [record_comparator_total]
  | cons i rest ih =>
    simp only [record_comparator_total] at h1 h2 ⊢
    cases hxy : strCmp (a.getD i "") (b.getD i "") with
    | gt => rw [hxy] at h1; exact absurd rfl h1
    | lt =>
      have hab := strCmp_eq_lt.mp hxy
      cases hyz : strCmp (b.getD i "") (c.getD i "") with
      | gt => rw [hyz] at h2; exact absurd rfl h2
      | lt =>
        have hbc := strCmp_eq_lt.mp hyz
        rw [strCmp_eq_lt.mpr (lt_trans hab hbc)]
        simp
      | eq =>
        have hbc := strCmp_eq_eq.mp hyz
        rw [strCmp_eq_lt.mpr (hbc ▸ hab)]
        simp
    | eq =>
      have hab := strCmp_eq_eq.mp hxy
      rw [hxy] at h1
      cases hyz : strCmp (b.getD i "") (c.getD i "") with
      | gt => rw [hyz] at h2; exact absurd rfl h2
      | lt =>
        have hbc := strCmp_eq_lt.mp hyz
        rw [strCmp_eq_lt.mpr (hab ▸ hbc)]
        simp
      | eq =>
        have hbc := strCmp_eq_eq.mp hyz
        rw [hyz] at h2
        rw [strCmp_eq_eq.mpr (hab.trans hbc)]
        exact ih h1 h2

theorem recordLeTotal_total (idxs : List Nat) (a b : List String) :
    (recordLeTotal idxs a b || recordLeTotal idxs b a) = true := by
  by_cases h : record_comparator_total idxs a b = .gt
  · have : record_comparator_total idxs b a = .lt := by
      rw [record_comparator_total_swap, h]
      rfl
    simp [recordLeTotal, this]
  · simp [recordLeTotal, h]

theorem recordLe_eq_recordLeTotal {idxs : List Nat} {a b : List String}
    (h : ∀ i ∈ idxs, i < a.length ∧ i < b.length) :
    recordLe idxs a b = recordLeTotal idxs a b := by
  rw [recordLe, recordLeTotal, record_comparator_of_inRange a b idxs h]
  simp

theorem merge_congr {α : Type} {le le' : α → α → Bool} :
    ∀ {xs ys : List α}, (∀ a ∈ xs, ∀ b ∈ ys, le a b = le' a b) →
      List.merge xs ys le = List.merge xs ys le'
  | [], ys, _ => by simp
  | x :: xs, [], _ => by simp
  | x :: xs, y :: ys, h => by
    rw [List.merge, List.merge]
    rw [h x (List.mem_cons_self _ _) y (List.mem_cons_self _ _)]
    by_cases hc : le' x y = true
    · rw [if_pos hc, if_pos hc]
      rw [merge_congr (fun a ha b hb => h a (List.mem_cons_of_mem _ ha) b hb)]
    · rw [if_neg hc, if_neg hc]
      rw [merge_congr (fun a ha b hb => h a ha b (List.mem_cons_of_mem _ hb))]

theorem mergeSort_congr {α : Type} {le le' : α → α → Bool} :
    ∀ (l : List α), (∀ a ∈ l, ∀ b ∈ l, le a b = le' a b) →
      l.mergeSort le = l.mergeSort le'
  | [], _ => by simp
  | [a], _ => by simp
  | a :: b :: xs, h => by
    have : (List.splitInTwo ⟨a :: b :: xs, rfl⟩).1.1.length < xs.length + 1 + 1 := by
      simp [List.splitInTwo_fst]
      omega
    have : (List.splitInTwo ⟨a :: b :: xs, rfl⟩).2.1.length < xs.length + 1 + 1 := by
      simp [List.splitInTwo_snd]
      omega
    have hsub1 : ∀ y ∈ (List.splitInTwo ⟨a :: b :: xs, rfl⟩).1.1, y ∈ a :: b :: xs := by
      intro y hy
      rw [List.splitInTwo_fst] at hy
      exact List.mem_of_mem_take hy
    have hsub2 : ∀ y ∈ (List.splitInTwo ⟨a :: b :: xs, rfl⟩).2.1, y ∈ a :: b :: xs := by
      intro y hy
      rw [List.splitInTwo_snd] at hy
      exact List.mem_of_mem_drop hy
    rw [List.mergeSort, List.mergeSort]
    rw [mergeSort_congr (List.splitInTwo ⟨a :: b :: xs, rfl⟩).1.1
      (fun x hx y hy => h x (hsub1 x hx) y (hsub1 y hy))]
    rw [mergeSort_congr (List.splitInTwo ⟨a :: b :: xs, rfl⟩).2.1
      (fun x hx y hy => h x (hsub2 x hx) y (hsub2 y hy))]
    exact merge_congr (fun x hx y hy =>
      h x (hsub1 x (List.mem_mergeSort.mp hx)) y (hsub2 y (List.mem_mergeSort.mp hy)))
termination_by l => l.length

theorem sort_order_scan_lt (sort_column : String) :
    ∀ (index : Nat) (hs : List String),
      ∀ k ∈ sort_order_scan sort_column index hs, k < index + hs.length := by
  intro index hs
  induction hs generalizing index with
  | nil => simp [sort_order_scan]
  | cons h rest ih =>
    intro k hk
    simp only [sort_order_scan] at hk
    split_ifs at hk with hc
    · rcases List.mem_cons.mp hk with rfl | hk'
      · simp only [List.length_cons]
        omega
      · have := ih (index + 1) k hk'
        simp only [List.length_cons]
        omega
    · have := ih (index + 1) k hk
      simp only [List.length_cons]
      omega

theorem get_sort_order_lt (header_row sort_columns : List String) :
    ∀ k ∈ get_sort_order header_row sort_columns, k < header_row.length := by
  induction sort_columns with
  | nil => simp [get_sort_order]
  | cons c rest ih =>
    intro k hk
    simp only [get_sort_order, List.foldr_cons, List.mem_append] at hk
    rcases hk with hk | hk
    · have := sort_order_scan_lt c 0 header_row k hk
      omega
    · exact ih k hk

/-- C10: when every resolved sort index is strictly below the number of
fields of both records, every field lookup of `record_comparator` succeeds
(the `unwrap` panic branch is unreachable) and a defined `Ordering` is
returned, so sorting rows that all have a field at every resolved index is
panic-free. -/
theorem record_comparator_no_panic (a b : List String) (idxs : List Nat)
    (h : ∀ i ∈ idxs, i < a.length ∧ i < b.length) :
    ∃ o, record_comparator a b idxs = some o :=
  ⟨record_comparator_total idxs a b, record_comparator_of_inRange a b idxs h⟩

/-- Witness for C10: comparing the one-field records `["x"]` and `["y"]`
at the resolved index list `[0]` returns a defined ordering. -/
theorem record_comparator_no_panic_witness :
    ∃ o, record_comparator ["x"] ["y"] [0] = some o :=
  record_comparator_no_panic ["x"] ["y"] [0] (by decide)

/-- C6: sorting an already-sorted file is idempotent — if the data rows
are already pairwise ordered under the comparator induced by the declared
sort columns, `sort_csv_file` returns the header and the rows unchanged
(so a rewritten file is byte-identical; no reordering happens at all,
including among tied rows). -/
theorem sort_csv_file_idempotent (header_row : List String)
    (records : List (List String)) (sort_columns : List String)
    (hsorted : records.Pairwise
      (fun a b => recordLe (get_sort_order header_row sort_columns) a b = true)) :
    sort_csv_file header_row records sort_columns = (header_row, records) := by
  unfold sort_csv_file
  show (header_row,
      records.mergeSort (recordLe (get_sort_order header_row sort_columns))) = _
  rw [List.mergeSort_of_sorted hsorted]

theorem strCmp_lt_of_toList {a b : String} (h : a.toList < b.toList) :
    strCmp a b = .lt :=
  strCmp_eq_lt.mpr (String.lt_iff_toList_lt.mpr h)

/-- Witness for C6: re-sorting the already-sorted file with header
`["a"]` and rows `["1"], ["2"]` returns it unchanged. -/
theorem sort_csv_file_idempotent_witness :
    sort_csv_file ["a"] [["1"], ["2"]] ["a"] = (["a"], [["1"], ["2"]]) := by
  have hord : get_sort_order ["a"] ["a"] = [0] := by
    simp [get_sort_order, sort_order_scan, strCmp_eq_eq]
  have hcmp : record_comparator ["1"] ["2"] [0] = some .lt := by
    simp [record_comparator, strCmp_lt_of_toList (show ("1" : String).toList < ("2" : String).toList by decide)]
  refine sort_csv_file_idempotent ["a"] [["1"], ["2"]] ["a"] ?_
  rw [hord]
  refine List.Pairwise.cons ?_ (List.Pairwise.cons (by simp) List.Pairwise.nil)
  intro r hr
  rcases List.mem_singleton.mp hr with rfl
  simp [recordLe, hcmp]

/-- C8 counterexample: a configuration may declare an EMPTY sort-column
sequence (`sort_columns = some []`); its output file is still processed by
the sort-stage worker (`sort_csv_file` is invoked: read fully and
rewritten), although the rule has no non-empty sort-column sequence —
refuting "exactly those ... non-empty". -/
theorem sort_stage_empty_sort_columns_counterexample :
    sort_stage_rewrites ⟨[⟨"a", true, none, none, none⟩], "e.csv", some []⟩ = true
    ∧ ¬ ∃ sc, (⟨[⟨"a", true, none, none, none⟩], "e.csv", some []⟩
          : FilterConfig).sort_columns = some sc ∧ sc ≠ [] := by
  refine ⟨rfl, ?_⟩
  rintro ⟨sc, hsc, hne⟩
  cases hsc
  exact hne rfl

/-- C8 (amended): the sort stage processes (reads fully and rewrites,
header unchanged) exactly those output files whose rule DECLARES a
sort-column sequence, even an empty one — in which case the rewrite
leaves header and rows unchanged; a rule declaring no sort-column
sequence leaves its file untouched. -/
theorem sort_stage_frame (config : FilterConfig) (header_row : List String)
    (records : List (List String)) :
    (sort_stage_rewrites config = true ↔ config.sort_columns.isSome = true)
    ∧ sort_stage_file none header_row records = (header_row, records)
    ∧ sort_stage_file (some []) header_row records = (header_row, records)
    ∧ ∀ sc, (sort_stage_file (some sc) header_row records).1 = header_row := by
  refine ⟨Iff.rfl, rfl, ?_, fun sc => rfl⟩
  show sort_csv_file header_row records [] = _
  refine sort_csv_file_idempotent header_row records [] ?_
  induction records with
  | nil => exact List.Pairwise.nil
  | cons r rs ih => exact List.Pairwise.cons (fun b _ => rfl) ih

/-- Witness for C8 (amended): a file with a rule declaring no sort
columns is untouched, and one declaring an empty sequence is rewritten
without change. -/
theorem sort_stage_frame_witness :
    sort_stage_file none ["h"] [["1"]] = (["h"], [["1"]])
    ∧ sort_stage_file (some []) ["h"] [["1"]] = (["h"], [["1"]]) :=
  ⟨(sort_stage_frame ⟨[], "x.csv", none⟩ ["h"] [["1"]]).2.1,
   (sort_stage_frame ⟨[], "x.csv", none⟩ ["h"] [["1"]]).2.2.1⟩

theorem keys_le_of_recordLeTotal_pair {r s : List String} {i j : Nat}
    (h : recordLeTotal [i, j] r s = true) :
    r.getD i "" ≤ s.getD i "" ∧
      (r.getD i "" = s.getD i "" → r.getD j "" ≤ s.getD j "") := by
  simp only [recordLeTotal, ne_eq, decide_eq_true_eq] at h
  cases hc1 : strCmp (r.getD i "") (s.getD i "") with
  | lt =>
    have hlt := strCmp_eq_lt.mp hc1
    exact ⟨le_of_lt hlt, fun he => absurd he (ne_of_lt hlt)⟩
  | gt =>
    simp only [record_comparator_total, hc1] at h
    exact absurd trivial h
  | eq =>
    have heq := strCmp_eq_eq.mp hc1
    refine ⟨le_of_eq heq, fun _ => ?_⟩
    cases hc2 : strCmp (r.getD j "") (s.getD j "") with
    | lt => exact le_of_lt (strCmp_eq_lt.mp hc2)
    | eq => exact le_of_eq (strCmp_eq_eq.mp hc2)
    | gt =>
      simp only [record_comparator_total, hc1, hc2] at h
      exact absurd trivial h

/-- C2: for a file whose sort columns `[A, B]` resolve to the indexes
`[i, j]` of its own header, the sorted data rows are non-decreasing in
column `i` (byte-wise/lexicographic string comparison) and, within runs of
equal `i`-values, non-decreasing in column `j`; and any rows tied on both
sort columns keep their pre-sort relative order (stability).  (The length
hypothesis mirrors the CSV reader's guarantee that every row has exactly
as many fields as the header.) -/
theorem sort_csv_file_sorted_and_stable (header_row : List String)
    (records : List (List String)) (A B : String) (i j : Nat)
    (hord : get_sort_order header_row [A, B] = [i, j])
    (hlen : ∀ r ∈ records, r.length = header_row.length) :
    ((sort_csv_file header_row records [A, B]).2.Pairwise
        (fun r s => r.getD i "" ≤ s.getD i "" ∧
          (r.getD i "" = s.getD i "" → r.getD j "" ≤ s.getD j "")))
    ∧ (∀ tied : List (List String), tied.Sublist records →
        tied.Pairwise (fun r s => record_comparator r s [i, j] = some .eq) →
        tied.Sublist (sort_csv_file header_row records [A, B]).2) := by
  have hidx : ∀ k ∈ [i, j], k < header_row.length := by
    intro k hk
    rw [← hord] at hk
    exact get_sort_order_lt header_row [A, B] k hk
  have hagree : ∀ r ∈ records, ∀ s ∈ records,
      recordLe [i, j] r s = recordLeTotal [i, j] r s := by
    intro r hr s hs
    refine recordLe_eq_recordLeTotal ?_
    intro k hk
    rw [hlen r hr, hlen s hs]
    exact ⟨hidx k hk, hidx k hk⟩
  have hproj : (sort_csv_file header_row records [A, B]).2
      = records.mergeSort (recordLe [i, j]) := by
    unfold sort_csv_file
    show records.mergeSort (recordLe (get_sort_order header_row [A, B])) = _
    rw [hord]
  have hms : records.mergeSort (recordLe [i, j])
      = records.mergeSort (recordLeTotal [i, j]) :=
    mergeSort_congr records hagree
  constructor
  · rw [hproj, hms]
    have hsorted := List.sorted_mergeSort
      (fun a b c hab hbc => recordLeTotal_trans [i, j] a b c hab hbc)
      (fun a b => recordLeTotal_total [i, j] a b) records
    exact hsorted.imp (fun hrs => keys_le_of_recordLeTotal_pair hrs)
  · intro tied hsub htied
    rw [hproj, hms]
    refine List.sublist_mergeSort
      (fun a b c hab hbc => recordLeTotal_trans [i, j] a b c hab hbc)
      (fun a b => recordLeTotal_total [i, j] a b) ?_ hsub
    refine htied.imp (fun hrs => ?_)
    have htot := record_comparator_some_total hrs
    simp [recordLeTotal, htot]

/-- Witness for C2: sorting the file with header `["a", "b"]` and rows
`["1","x"], ["1","x"], ["0","z"]` by columns `["a", "b"]` produces rows
pairwise ordered on the resolved indexes `[0, 1]`, and the two tied rows
keep their relative order. -/
theorem sort_csv_file_sorted_and_stable_witness :
    ((sort_csv_file ["a", "b"] [["1", "x"], ["1", "x"], ["0", "z"]] ["a", "b"]).2.Pairwise
        (fun r s => r.getD 0 "" ≤ s.getD 0 "" ∧
          (r.getD 0 "" = s.getD 0 "" → r.getD 1 "" ≤ s.getD 1 "")))
    ∧ [["1", "x"], ["1", "x"]].Sublist
        (sort_csv_file ["a", "b"] [["1", "x"], ["1", "x"], ["0", "z"]] ["a", "b"]).2 := by
  have hord : get_sort_order ["a", "b"] ["a", "b"] = [0, 1] := by
    simp [get_sort_order, sort_order_scan, strCmp_eq_eq]
  have h := sort_csv_file_sorted_and_stable ["a", "b"]
    [["1", "x"], ["1", "x"], ["0", "z"]] "a" "b" 0 1 hord (by decide)
  refine ⟨h.1, h.2 [["1", "x"], ["1", "x"]] (List.sublist_append_left _ _) ?_⟩
  have hcmp : record_comparator ["1", "x"] ["1", "x"] [0, 1] = some .eq := by
    simp [record_comparator, show strCmp "1" "1" = .eq from strCmp_eq_eq.mpr rfl,
      show strCmp "x" "x" = .eq from strCmp_eq_eq.mpr rfl]
  exact List.Pairwise.cons (fun r hr => by rcases List.mem_singleton.mp hr with rfl; exact hcmp)
    (List.Pairwise.cons (by simp) List.Pairwise.nil)
